import Mathlib

/-!
BLE security manager porting layer (`ble/pal/PalSecurityManager.h`)

A shallow embedding of the declarations of `PalSecurityManager.h` and the
properties the specification states about them.

* C arrays `uint8_t name[n]` are lists of octets of length exactly `n`.
* `uint8_t` / `uint32_t` scalars are natural numbers, reduced modulo `2 ^ 8` /
  `2 ^ 32` wherever a value is stored.
* A pointer is an `Option`: `NULL` is `none`.
* `BLEProtocol::AddressBytes_t` is declared in `ble/BLEProtocol.h`, outside the
  file at hand; the address type is a parameter of every definition using it.
-/

namespace ble
namespace pal

/-! ## Scalar and array types -/

/-- Number of values of a `uint8_t`. -/
def UINT8_RANGE : Nat := 2 ^ 8

/-- Number of octets of a `uint32_t`. -/
def sizeof_uint32_t : Nat := 4

/-- Number of values of a `uint32_t`. -/
def UINT32_RANGE : Nat := 2 ^ (8 * sizeof_uint32_t)

/-- Storing an integer into a `uint8_t`. -/
def to_uint8_t (n : Nat) : Nat := n % UINT8_RANGE

/-- Storing an integer into a `uint32_t`. -/
def to_uint32_t (n : Nat) : Nat := n % UINT32_RANGE

/-- The C array type `uint8_t [n]`: exactly `n` octets. -/
def uint8_array (n : Nat) : Type :=
  { bytes : List Nat // bytes.length = n ∧ ∀ b ∈ bytes, b < UINT8_RANGE }

instance (n : Nat) : DecidableEq (uint8_array n) :=
  inferInstanceAs (DecidableEq { bytes : List Nat // bytes.length = n ∧ ∀ b ∈ bytes, b < UINT8_RANGE })

/-- The octets of an array, in index order. -/
def uint8_array.bytes {n : Nat} (a : uint8_array n) : List Nat := a.val

/-- The C operator `sizeof` on an array of octets: the number of octets it holds. -/
def uint8_array.sizeof {n : Nat} (a : uint8_array n) : Nat := a.bytes.length

/-- The array of `n` octets all equal to `b`. -/
def uint8_array.replicate (n : Nat) (b : Fin 256) : uint8_array n :=
  ⟨List.replicate n b.val, by
    refine ⟨List.length_replicate n b.val, ?_⟩
    intro c hc
    rw [List.eq_of_mem_replicate hc]
    exact b.isLt⟩

/-- The type `typedef uint8_t irk_t[16];`. -/
abbrev irk_t : Type := uint8_array 16

/-- The type `typedef uint8_t csrk_t[16];`. -/
abbrev csrk_t : Type := uint8_array 16

/-- The type `typedef uint8_t ltk_t[16];`. -/
abbrev ltk_t : Type := uint8_array 16

/-- The type `typedef uint8_t ediv_t[8];`. -/
abbrev ediv_t : Type := uint8_array 8

/-- The type `typedef uint8_t rand_t[2];`. -/
abbrev rand_t : Type := uint8_array 2

/-- The type `typedef uint32_t passkey_num_t;`: its number of octets. -/
def sizeof_passkey_num_t : Nat := sizeof_uint32_t

/-- Storing an integer into a `passkey_num_t`, as done when a value is passed to
`set_passkey(passkey_num_t passkey)`. -/
def to_passkey_num_t (n : Nat) : Nat := to_uint32_t n

/-- The type `struct bonded_list_entry_t`. -/
structure bonded_list_entry_t (address_t : Type) where
  peer_address : address_t
  ediv : ediv_t
  rand : rand_t
  ltk : ltk_t
  csrk : csrk_t
deriving DecidableEq

/-- The type `struct resolving_list_entry_t`. -/
structure resolving_list_entry_t (address_t : Type) where
  peer_address : address_t
  peer_irk : irk_t
  local_irk : irk_t
deriving DecidableEq

/-- The arguments of `SecurityManagerEventHandler::keys_exchanged`. -/
structure keys_exchanged_args (connection_handle_t address_t : Type) where
  handle : connection_handle_t
  peer_address : address_t
  ediv : ediv_t
  rand : rand_t
  ltk : ltk_t
  csrk : csrk_t

/-- The arguments of `SecurityManagerEventHandler::ltk_request`. -/
structure ltk_request_args (connection_handle_t : Type) where
  handle : connection_handle_t
  ediv : ediv_t
  rand : rand_t

/-! ## Key distribution and authentication flags -/

/-- The type `typedef uint8_t key_distribution_t;`: storing an integer into it. -/
def to_key_distribution_t (n : Nat) : Nat := to_uint8_t n

/-- The enumerator `KeyDistributionFlags_t::KEY_DISTRIBUTION_NONE`. -/
def KEY_DISTRIBUTION_NONE : Nat := 0x00

/-- The enumerator `KeyDistributionFlags_t::KEY_DISTRIBUTION_ENCRYPTION`. -/
def KEY_DISTRIBUTION_ENCRYPTION : Nat := 0x01

/-- The enumerator `KeyDistributionFlags_t::KEY_DISTRIBUTION_IDENTITY`. -/
def KEY_DISTRIBUTION_IDENTITY : Nat := 0x02

/-- The enumerator `KeyDistributionFlags_t::KEY_DISTRIBUTION_SIGNING`. -/
def KEY_DISTRIBUTION_SIGNING : Nat := 0x04

/-- The enumerator `KeyDistributionFlags_t::KEY_DISTRIBUTION_LINK`. -/
def KEY_DISTRIBUTION_LINK : Nat := 0x08

/-- The enumerator `KeyDistributionFlags_t::KEY_DISTRIBUTION_ALL`. -/
def KEY_DISTRIBUTION_ALL : Nat := 0x0F

/-- The enumerators of `KeyDistributionFlags_t` that stand for one key each. -/
def key_distribution_flags : List Nat :=
  [KEY_DISTRIBUTION_ENCRYPTION, KEY_DISTRIBUTION_IDENTITY, KEY_DISTRIBUTION_SIGNING,
    KEY_DISTRIBUTION_LINK]

/-- The C statement `v |= f` on a `key_distribution_t`. -/
def key_distribution_set (v f : Nat) : Nat := to_key_distribution_t (v ||| f)

/-- The `key_distribution_t` obtained from `KEY_DISTRIBUTION_NONE` by or-ing in the flags
of `S`, one after the other. -/
def key_distribution_of (S : List Nat) : Nat :=
  S.foldl key_distribution_set KEY_DISTRIBUTION_NONE

/-- The C test `(v & f) != 0`. -/
def flag_is_set (v f : Nat) : Bool := (v &&& f) != 0

/-- The type `typedef uint8_t authentication_t;`: storing an integer into it. -/
def to_authentication_t (n : Nat) : Nat := to_uint8_t n

/-- The enumerator `AuthenticationFlags_t::AUTHENTICATION_BONDING`. -/
def AUTHENTICATION_BONDING : Nat := 0x01

/-- The enumerator `AuthenticationFlags_t::AUTHENTICATION_MITM`; the source notes that 0x02 is
missing because bonding uses two bits. -/
def AUTHENTICATION_MITM : Nat := 0x04

/-- The enumerator `AuthenticationFlags_t::AUTHENTICATION_SECURE_CONNECTIONS`. -/
def AUTHENTICATION_SECURE_CONNECTIONS : Nat := 0x08

/-- The enumerator `AuthenticationFlags_t::AUTHENTICATION_KEYPRESS_NOTIFICATION`. -/
def AUTHENTICATION_KEYPRESS_NOTIFICATION : Nat := 0x10

/-- The enumerators of `AuthenticationFlags_t`. -/
def authentication_flags : List Nat :=
  [AUTHENTICATION_BONDING, AUTHENTICATION_MITM, AUTHENTICATION_SECURE_CONNECTIONS,
    AUTHENTICATION_KEYPRESS_NOTIFICATION]

/-- The second bit of the bonding field of the AuthReq octet, which no enumerator names. -/
def AUTHENTICATION_BONDING_SECOND_BIT : Nat := 0x02

/-- The C statement `v |= f` on an `authentication_t`. -/
def authentication_set (v f : Nat) : Nat := to_authentication_t (v ||| f)

/-- The `authentication_t` obtained from zero by or-ing in the flags of `S`, one after
the other. -/
def authentication_of (S : List Nat) : Nat :=
  S.foldl authentication_set 0

/-- A value with exactly one bit set. -/
def is_single_bit (f : Nat) : Prop := ∃ k : Nat, f = 2 ^ k

/-! ## Event handler slot of `SecurityManager` -/

/-- The data member of `class SecurityManager`: `SecurityManagerEventHandler *_pal_event_handler`.
The pointee type is a parameter; the null pointer is `none`. -/
structure SecurityManager (SecurityManagerEventHandler : Type) where
  _pal_event_handler : Option SecurityManagerEventHandler

/-- The constructor `SecurityManager() : _pal_event_handler(NULL)`. -/
def SecurityManager.new (H : Type) : SecurityManager H :=
  { _pal_event_handler := none }

/-- The member `void set_event_handler(SecurityManagerEventHandler *event_handler)`. -/
def SecurityManager.set_event_handler {H : Type} (self : SecurityManager H)
    (event_handler : Option H) : SecurityManager H :=
  { self with _pal_event_handler := event_handler }

/-- The member `SecurityManagerEventHandler* get_event_handler()`. -/
def SecurityManager.get_event_handler {H : Type} (self : SecurityManager H) : Option H :=
  self._pal_event_handler

/-- A sequence of `set_event_handler` calls, the head of the list first. -/
def SecurityManager.set_event_handlers {H : Type} (self : SecurityManager H)
    (calls : List (Option H)) : SecurityManager H :=
  calls.foldl SecurityManager.set_event_handler self

/-! ## Bonded list and key store -/

/-- The type `struct bonded_list_t`: `entries` stands for the array cells `entries[0]` up to
`entries[size - 1]`; `size` and `capacity` are the two `uint8_t` members. -/
structure bonded_list_t (address_t : Type) where
  entries : List (bonded_list_entry_t address_t)
  size : Nat
  capacity : Nat
deriving DecidableEq

/-- The error taxonomy of the specification (section 7), with `NoKeyAvailable` of
section 4.4. -/
inductive Error where
  | InvalidState
  | InvalidParameter
  | VerificationFailed
  | StoreFull
  | NotFound
  | Timeout
  | NoKeyAvailable
deriving DecidableEq, Repr

/-- The outcome of an operation: success or one error of the taxonomy. -/
abbrev Outcome : Type := Except Error Unit

instance : DecidableEq Outcome := fun a b =>
  match a, b with
  | .ok (), .ok () => isTrue rfl
  | .error e, .error f =>
    if h : e = f then isTrue (by rw [h]) else isFalse (fun hh => h (by cases hh; rfl))
  | .ok (), .error _ => isFalse (fun hh => by cases hh)
  | .error _, .ok () => isFalse (fun hh => by cases hh)

/-- The peer addresses held by a bonded list, in storage order. -/
def bonded_list_t.addresses {address_t : Type} (list : bonded_list_t address_t) :
    List address_t :=
  list.entries.map (fun e => e.peer_address)

/-- The consistency rules of the key store: the `size` member counts the stored cells,
it does not exceed `capacity`, both fit a `uint8_t`, and no peer address is stored
twice. -/
def bonded_list_t.consistent {address_t : Type} (list : bonded_list_t address_t) : Prop :=
  list.size = list.entries.length ∧ list.size ≤ list.capacity ∧
    list.capacity < UINT8_RANGE ∧ list.addresses.Nodup

/-- The position of the first cell holding the peer address `address`, scanning the
cells from index `0`. -/
def find_bonded_entry {address_t : Type} [DecidableEq address_t] (address : address_t) :
    List (bonded_list_entry_t address_t) → Option Nat
  | [] => none
  | e :: rest =>
    if e.peer_address = address then some 0
    else (find_bonded_entry address rest).map (fun i => i + 1)

/-- Modelled from the spec: the body of `add_bonded_list_entry`, which the interface
declares pure virtual. Section 4.3: the store is a bounded-capacity ordered collection
keyed by peer address; `add` for an existing address overwrites in place, `add` on a
full store fails with `StoreFull`. Section 8: on a full store re-adding an existing
address succeeds, so the address is looked up before the capacity is tested. -/
def add_bonded_list_entry {address_t : Type} [DecidableEq address_t]
    (list : bonded_list_t address_t) (entry : bonded_list_entry_t address_t) :
    bonded_list_t address_t × Outcome :=
  match find_bonded_entry entry.peer_address list.entries with
  | some i => ({ list with entries := list.entries.set i entry }, .ok ())
  | none =>
    if list.capacity ≤ list.size then (list, .error Error.StoreFull)
    else
      ({ list with entries := list.entries ++ [entry], size := to_uint8_t (list.size + 1) },
        .ok ())

/-- Modelled from the spec: the bonded list of a store that holds nothing, as
`clear_bonded_list` leaves it (section 8: `clear()` leaves size 0). -/
def empty_bonded_list (address_t : Type) (capacity : Nat) : bonded_list_t address_t :=
  { entries := [], size := 0, capacity := capacity }

/-- The bonded list after a sequence of `add_bonded_list_entry` calls, the head of the
list first, whatever their outcomes. -/
def add_bonded_list_entries {address_t : Type} [DecidableEq address_t]
    (list : bonded_list_t address_t) (entries : List (bonded_list_entry_t address_t)) :
    bonded_list_t address_t :=
  entries.foldl (fun l e => (add_bonded_list_entry l e).1) list

/-! ## Pairing session state machine -/

/-- Modelled from the spec: `SecurityIOCapabilities_t`, which the interface imports from
`ble/SecurityManager.h`. Section 3 lists its five values. -/
inductive SecurityIOCapabilities_t where
  | DisplayOnly
  | DisplayYesNo
  | KeyboardOnly
  | NoInputNoOutput
  | KeyboardDisplay
deriving DecidableEq, Repr

/-- Modelled from the spec: the pairing algorithms capability negotiation chooses from
(section 4.1). -/
inductive PairingAlgorithm where
  | JustWorks
  | PasskeyEntry
  | NumericComparison
  | OutOfBand
deriving DecidableEq, Repr

/-- The parameters `request_pairing` and `accept_pairing` take after the connection
handle, which the pairing request and response PDUs carry to the peer. -/
structure pairing_parameters where
  iocaps : SecurityIOCapabilities_t
  use_oob : Bool
  authentication : Nat
  max_key_size : Nat
  initiator_dist : Nat
  responder_dist : Nat
deriving DecidableEq, Repr

/-- Modelled from the spec: the states of a pairing session (section 4.1). -/
inductive PairingState where
  | Idle
  | Requested
  | CapabilitiesExchanged
  | AuthenticatingMITM
  | KeyGeneration
  | KeyDistribution
  | Complete
  | Aborted
deriving DecidableEq, Repr

/-- The two terminal states of a pairing session. -/
def PairingState.is_terminal : PairingState → Bool
  | .Complete => true
  | .Aborted => true
  | _ => false

/-- Modelled from the spec: the transient per-handle pairing session (section 3). It
holds the parameters of both sides, the algorithm chosen by capability negotiation,
the keys each side has still to deliver, the count of protocol violations, and the
current state. -/
structure PairingSession where
  state : PairingState
  local_parameters : Option pairing_parameters
  peer_parameters : Option pairing_parameters
  algorithm : Option PairingAlgorithm
  initiator_keys_awaited : Nat
  responder_keys_awaited : Nat
  violations : Nat
deriving DecidableEq, Repr

/-- The session a connection handle starts with. -/
def PairingSession.idle : PairingSession :=
  { state := .Idle, local_parameters := none, peer_parameters := none, algorithm := none,
    initiator_keys_awaited := 0, responder_keys_awaited := 0, violations := 0 }

/-- What a pairing session reacts to: the local calls of the interface, the inbound PDUs
the specification names, the expiry of a timer, and the progress of the engine itself
from `CapabilitiesExchanged`, for which the specification names no call and no PDU. -/
inductive Input where
  | request_pairing (parameters : pairing_parameters)
  | accept_pairing (parameters : pairing_parameters)
  | reject_pairing
  | cancel_pairing
  | confirmation_entered (confirmation : Bool)
  | passkey_entered (passkey : List Nat)
  | set_oob (c192 r192 : List Nat)
  | pdu_pairing_request (parameters : pairing_parameters)
  | pdu_pairing_response (parameters : pairing_parameters)
  | pdu_keypress_notification
  | pdu_confirm (confirm_matches : Bool)
  | pdu_key (from_initiator : Bool) (key : Nat)
  | timeout
  | proceed
deriving DecidableEq, Repr

/-- The inputs that are local calls of the interface. -/
def Input.is_local_call : Input → Bool
  | .request_pairing _ => true
  | .accept_pairing _ => true
  | .reject_pairing => true
  | .cancel_pairing => true
  | .confirmation_entered _ => true
  | .passkey_entered _ => true
  | .set_oob _ _ => true
  | _ => false

/-- The inputs that are inbound PDUs. -/
def Input.is_pdu : Input → Bool
  | .pdu_pairing_request _ => true
  | .pdu_pairing_response _ => true
  | .pdu_keypress_notification => true
  | .pdu_confirm _ => true
  | .pdu_key _ _ => true
  | _ => false

/-- Modelled from the spec: a local call inconsistent with the current state is rejected
with `InvalidState` and does not mutate the session (section 4.1). -/
def invalid_call (s : PairingSession) : PairingSession × Outcome :=
  (s, .error Error.InvalidState)

/-- Modelled from the spec: a PDU inconsistent with the current state is rejected with
`InvalidState`; repeated protocol violations abort the session (section 4.1), and
`Aborted` is entered from non-terminal states only. The number of violations tolerated
is a parameter. -/
def protocol_violation (violation_limit : Nat) (s : PairingSession) :
    PairingSession × Outcome :=
  if s.state.is_terminal then (s, .error Error.InvalidState)
  else if violation_limit ≤ s.violations + 1 then
    ({ s with state := .Aborted, violations := s.violations + 1 }, .error Error.InvalidState)
  else ({ s with violations := s.violations + 1 }, .error Error.InvalidState)

/-- Modelled from the spec: the outcome of capability negotiation (section 4.1). The
algorithm is looked up from the parameters of the initiator and of the responder; the
keys to distribute are those both sides named. The lookup `select` stands for the
standard SMP table, whose entries neither the interface nor the specification lists. -/
def capabilities_exchanged (select : pairing_parameters → pairing_parameters → PairingAlgorithm)
    (s : PairingSession) (initiator responder : pairing_parameters) : PairingSession :=
  { s with
    state := .CapabilitiesExchanged
    algorithm := some (select initiator responder)
    initiator_keys_awaited := initiator.initiator_dist &&& responder.initiator_dist
    responder_keys_awaited := initiator.responder_dist &&& responder.responder_dist }

/-- Modelled from the spec: the state a session takes once key generation has succeeded
(section 4.1): `KeyDistribution`, or `Complete` at once if no key is awaited. -/
def after_key_generation (s : PairingSession) : PairingState :=
  if s.initiator_keys_awaited = 0 ∧ s.responder_keys_awaited = 0 then .Complete
  else .KeyDistribution

/-- Modelled from the spec: one reaction of the pairing session state machine, whose
implementation stands behind the pure virtual entry points of the interface. Each case
follows the sentence of section 4.1 (and section 5 for the timer) about that input.

* `request_pairing`: valid only from `Idle`; stores the parameters; to `Requested`.
* pairing request PDU: received by an idle responder, which keeps the peer parameters
  until the application answers with `accept_pairing` or `reject_pairing`.
* `accept_pairing`: valid only from `Idle`; stores the parameters, answers with the own
  capabilities; to `CapabilitiesExchanged`.
* pairing response PDU: received by the initiator in `Requested`; to
  `CapabilitiesExchanged`.
* `proceed`: from `CapabilitiesExchanged` to `AuthenticatingMITM`, or to `KeyGeneration`
  when the algorithm asks nothing of the user.
* `passkey_entered`, `confirmation_entered`, `set_oob`: the entry method awaited in
  `AuthenticatingMITM`, according to the algorithm; a refused confirmation aborts with
  `VerificationFailed`.
* keypress notification PDU: forwarded in `AuthenticatingMITM` without altering state.
* confirm value: in `KeyGeneration`, a match leads to `KeyDistribution` (or `Complete`),
  a mismatch to `Aborted`.
* key PDU: in `KeyDistribution`, a negotiated key still awaited is recorded; to
  `Complete` once both sides have delivered.
* `cancel_pairing`, `reject_pairing`: valid from any non-terminal state; to `Aborted`.
* `timeout`: to `Aborted` exactly as on cancellation. -/
def step (select : pairing_parameters → pairing_parameters → PairingAlgorithm)
    (violation_limit : Nat) (s : PairingSession) : Input → PairingSession × Outcome
  | .request_pairing p =>
    match s.state with
    | .Idle => ({ s with state := .Requested, local_parameters := some p }, .ok ())
    | _ => invalid_call s
  | .pdu_pairing_request q =>
    match s.state with
    | .Idle => ({ s with peer_parameters := some q }, .ok ())
    | _ => protocol_violation violation_limit s
  | .accept_pairing p =>
    match s.state, s.peer_parameters with
    | .Idle, some q =>
      (capabilities_exchanged select { s with local_parameters := some p } q p, .ok ())
    | _, _ => invalid_call s
  | .pdu_pairing_response q =>
    match s.state, s.local_parameters with
    | .Requested, some p =>
      (capabilities_exchanged select { s with peer_parameters := some q } p q, .ok ())
    | _, _ => protocol_violation violation_limit s
  | .proceed =>
    match s.state, s.algorithm with
    | .CapabilitiesExchanged, some .JustWorks => ({ s with state := .KeyGeneration }, .ok ())
    | .CapabilitiesExchanged, some _ => ({ s with state := .AuthenticatingMITM }, .ok ())
    | _, _ => (s, .ok ())
  | .passkey_entered _ =>
    match s.state, s.algorithm with
    | .AuthenticatingMITM, some .PasskeyEntry => ({ s with state := .KeyGeneration }, .ok ())
    | _, _ => invalid_call s
  | .confirmation_entered confirmation =>
    match s.state, s.algorithm with
    | .AuthenticatingMITM, some .NumericComparison =>
      if confirmation then ({ s with state := .KeyGeneration }, .ok ())
      else ({ s with state := .Aborted }, .error Error.VerificationFailed)
    | _, _ => invalid_call s
  | .set_oob _ _ =>
    match s.state, s.algorithm with
    | .AuthenticatingMITM, some .OutOfBand => ({ s with state := .KeyGeneration }, .ok ())
    | _, _ => invalid_call s
  | .pdu_keypress_notification =>
    match s.state with
    | .AuthenticatingMITM => (s, .ok ())
    | _ => protocol_violation violation_limit s
  | .pdu_confirm confirm_matches =>
    match s.state with
    | .KeyGeneration =>
      if confirm_matches then ({ s with state := after_key_generation s }, .ok ())
      else ({ s with state := .Aborted }, .error Error.VerificationFailed)
    | _ => protocol_violation violation_limit s
  | .pdu_key from_initiator key =>
    match s.state with
    | .KeyDistribution =>
      if from_initiator then
        if s.initiator_keys_awaited &&& key = 0 then protocol_violation violation_limit s
        else
          let s1 := { s with initiator_keys_awaited := s.initiator_keys_awaited ^^^
            (s.initiator_keys_awaited &&& key) }
          ({ s1 with state := after_key_generation s1 }, .ok ())
      else
        if s.responder_keys_awaited &&& key = 0 then protocol_violation violation_limit s
        else
          let s1 := { s with responder_keys_awaited := s.responder_keys_awaited ^^^
            (s.responder_keys_awaited &&& key) }
          ({ s1 with state := after_key_generation s1 }, .ok ())
    | _ => protocol_violation violation_limit s
  | .reject_pairing =>
    if s.state.is_terminal then invalid_call s else ({ s with state := .Aborted }, .ok ())
  | .cancel_pairing =>
    if s.state.is_terminal then invalid_call s else ({ s with state := .Aborted }, .ok ())
  | .timeout =>
    if s.state.is_terminal then (s, .ok ())
    else ({ s with state := .Aborted }, .error Error.Timeout)

/-- The session after a sequence of inputs, the head of the list first. -/
def run (select : pairing_parameters → pairing_parameters → PairingAlgorithm)
    (violation_limit : Nat) (s : PairingSession) (inputs : List Input) : PairingSession :=
  inputs.foldl (fun t i => (step select violation_limit t i).1) s

/-! ## Example values -/

/-- A bonded list entry for the peer address made of six octets `a`, with keys made of
the octet `k`. -/
def example_entry (a k : Fin 256) : bonded_list_entry_t (uint8_array 6) :=
  { peer_address := uint8_array.replicate 6 a
    ediv := uint8_array.replicate 8 0
    rand := uint8_array.replicate 2 0
    ltk := uint8_array.replicate 16 k
    csrk := uint8_array.replicate 16 k }

/-- The store of the scenario of section 8: capacity 8, holding 8 distinct peer
addresses. -/
def example_full_store : bonded_list_t (uint8_array 6) :=
  { entries := [example_entry 1 0, example_entry 2 0, example_entry 3 0, example_entry 4 0,
      example_entry 5 0, example_entry 6 0, example_entry 7 0, example_entry 8 0]
    size := 8
    capacity := 8 }

/-- The parameters of a device without input or output that asks for bonding and the
exchange of the encryption key in both directions. -/
def example_parameters : pairing_parameters :=
  { iocaps := .NoInputNoOutput
    use_oob := false
    authentication := AUTHENTICATION_BONDING
    max_key_size := 16
    initiator_dist := KEY_DISTRIBUTION_ENCRYPTION
    responder_dist := KEY_DISTRIBUTION_ENCRYPTION }

/-- A lookup that yields Just Works, as the scenario of section 8 for a device without
input or output does. -/
def example_select (_initiator _responder : pairing_parameters) : PairingAlgorithm :=
  .JustWorks

/-- The inputs of an initiator that pairs with Just Works and exchanges the encryption
keys of both sides. -/
def example_complete_inputs : List Input :=
  [.request_pairing example_parameters, .pdu_pairing_response example_parameters, .proceed,
    .pdu_confirm true, .pdu_key true KEY_DISTRIBUTION_ENCRYPTION,
    .pdu_key false KEY_DISTRIBUTION_ENCRYPTION]

/-- The inputs of an initiator that requests pairing and cancels it. -/
def example_aborted_inputs : List Input :=
  [.request_pairing example_parameters, .cancel_pairing]

/-- One input of every kind. -/
def example_all_inputs : List Input :=
  [.request_pairing example_parameters, .accept_pairing example_parameters, .reject_pairing,
    .cancel_pairing, .confirmation_entered true, .passkey_entered [1, 2, 3, 4, 5, 6],
    .set_oob [] [], .pdu_pairing_request example_parameters,
    .pdu_pairing_response example_parameters, .pdu_keypress_notification, .pdu_confirm true,
    .pdu_confirm false, .pdu_key true KEY_DISTRIBUTION_ENCRYPTION, .timeout, .proceed]

/-! ## Theorems -/

/-- The size of an array of octets is the extent of its type. -/
theorem uint8_array.sizeof_eq {n : Nat} (a : uint8_array n) : a.sizeof = n :=
  a.property.1

/-- C1, the behaviour of the code: the type `ediv_t` is declared with 8 octets and the
type `rand_t` with 2 octets, so every bonded list entry and every argument list of
`keys_exchanged` and `ltk_request` carries an 8-octet EDIV and a 2-octet RAND, the
reverse of the 2-octet EDIV and 8-octet RAND of the SMP layout. -/
theorem ediv_is_8_octets_rand_is_2_octets {connection_handle_t address_t : Type}
    (entry : bonded_list_entry_t address_t)
    (keys : keys_exchanged_args connection_handle_t address_t)
    (request : ltk_request_args connection_handle_t) :
    (entry.ediv.sizeof = 8 ∧ entry.rand.sizeof = 2) ∧
      (keys.ediv.sizeof = 8 ∧ keys.rand.sizeof = 2) ∧
      (request.ediv.sizeof = 8 ∧ request.rand.sizeof = 2) ∧
      (entry.ediv.sizeof ≠ 2 ∧ entry.rand.sizeof ≠ 8) ∧
      ((example_entry 1 0).ediv.bytes = [0, 0, 0, 0, 0, 0, 0, 0] ∧
        (example_entry 1 0).rand.bytes = [0, 0]) := by
  simp only [uint8_array.sizeof_eq]
  decide

/-- C2: every key type of the interface (`irk_t`, `csrk_t`, `ltk_t`) holds exactly 16
octets; so do the LTK and CSRK of a bonded list entry and the peer and local IRK of a
resolving list entry. -/
theorem key_types_hold_16_octets {address_t : Type} (irk : irk_t) (csrk : csrk_t)
    (ltk : ltk_t) (bonded : bonded_list_entry_t address_t)
    (resolving : resolving_list_entry_t address_t) :
    (irk.sizeof = 16 ∧ csrk.sizeof = 16 ∧ ltk.sizeof = 16) ∧
      (bonded.ltk.sizeof = 16 ∧ bonded.csrk.sizeof = 16) ∧
      (resolving.peer_irk.sizeof = 16 ∧ resolving.local_irk.sizeof = 16) := by
  simp only [uint8_array.sizeof_eq]
  decide

/-- C3: `passkey_num_t` is a field of 4 octets, and every passkey of six decimal digits,
`0 ≤ n ≤ 999999`, is stored in it exactly: reduction modulo `2 ^ 32` returns `n`, and two
distinct six-digit passkeys are stored as distinct values. -/
theorem passkey_num_t_holds_six_digit_passkeys (n m : Nat) (hn : n ≤ 999999)
    (hm : m ≤ 999999) :
    sizeof_passkey_num_t = 4 ∧ to_passkey_num_t n = n % 2 ^ 32 ∧ to_passkey_num_t n = n ∧
      (n ≠ m → to_passkey_num_t n ≠ to_passkey_num_t m) := by
  have key : ∀ k : Nat, k ≤ 999999 → to_passkey_num_t k = k := by
    intro k hk
    unfold to_passkey_num_t to_uint32_t UINT32_RANGE sizeof_uint32_t
    exact Nat.mod_eq_of_lt (by omega)
  refine ⟨rfl, rfl, key n hn, ?_⟩
  intro hne
  rw [key n hn, key m hm]
  exact hne

/-- Witness of C3 at the passkeys 123456 and 654321. -/
theorem passkey_num_t_holds_six_digit_passkeys_witness :
    sizeof_passkey_num_t = 4 ∧ to_passkey_num_t 123456 = 123456 % 2 ^ 32 ∧
      to_passkey_num_t 123456 = 123456 ∧
      ((123456 : Nat) ≠ 654321 → to_passkey_num_t 123456 ≠ to_passkey_num_t 654321) :=
  passkey_num_t_holds_six_digit_passkeys 123456 654321 (by decide) (by decide)

/-- After a sequence of `set_event_handler` calls that ends with the argument `last`,
the slot holds `last`. -/
theorem SecurityManager.get_after_set_event_handlers {H : Type} (self : SecurityManager H)
    (calls : List (Option H)) (last : Option H) :
    (self.set_event_handlers (calls ++ [last])).get_event_handler = last := by
  simp [SecurityManager.set_event_handlers, SecurityManager.set_event_handler,
    SecurityManager.get_event_handler]

/-- C9: the security manager holds one event handler slot, and the last write wins. A
newly constructed manager has a null handler; after any sequence of `set_event_handler`
calls `get_event_handler` returns the argument of the most recent call, null included
(and null if there was no call); setting the same handler twice is the same as setting
it once; an earlier handler is never retained. -/
theorem event_handler_slot_last_write_wins {H : Type} :
    (SecurityManager.new H).get_event_handler = none ∧
      (∀ (self : SecurityManager H) (calls : List (Option H)) (last : Option H),
        (self.set_event_handlers (calls ++ [last])).get_event_handler = last) ∧
      (∀ calls : List (Option H),
        ((SecurityManager.new H).set_event_handlers calls).get_event_handler
          = (calls.getLast?).getD none) ∧
      (∀ (self : SecurityManager H) (h : Option H),
        (self.set_event_handler h).set_event_handler h = self.set_event_handler h) ∧
      (∀ (self : SecurityManager H) (earlier later : Option H),
        (self.set_event_handler earlier).set_event_handler later
          = self.set_event_handler later) := by
  refine ⟨rfl, SecurityManager.get_after_set_event_handlers, ?_, fun _ _ => rfl,
    fun _ _ _ => rfl⟩
  intro calls
  rcases List.eq_nil_or_concat calls with h | ⟨front, last, h⟩
  · subst h
    rfl
  · subst h
    rw [List.concat_eq_append, SecurityManager.get_after_set_event_handlers]
    simp

/-- Or-ing a list of flags into a value, when one step keeps an invariant `P`, agrees with
the plain bitwise or and sets exactly the flags of the list on top of those set before. -/
theorem foldl_set_flags (set : Nat → Nat → Nat) (flags : List Nat) (P : Nat → Prop)
    (hstep : ∀ v, P v → ∀ x ∈ flags, P (set v x) ∧ set v x = v ||| x ∧
      ∀ f ∈ flags, flag_is_set (set v x) f = (flag_is_set v f || decide (x = f)))
    (S : List Nat) (hS : ∀ x ∈ S, x ∈ flags) (v : Nat) (hv : P v) :
    P (S.foldl set v) ∧ S.foldl set v = S.foldl (fun a b => a ||| b) v ∧
      ∀ f ∈ flags, flag_is_set (S.foldl set v) f = (flag_is_set v f || decide (f ∈ S)) := by
  induction S generalizing v with
  | nil => simp [hv]
  | cons x rest ih =>
    have hx : x ∈ flags := hS x (List.mem_cons_self x rest)
    have hrest : ∀ y ∈ rest, y ∈ flags := fun y hy => hS y (List.mem_cons_of_mem x hy)
    obtain ⟨hP, heq, htest⟩ := hstep v hv x hx
    obtain ⟨ihP, iheq, ihtest⟩ := ih hrest (set v x) hP
    refine ⟨by simpa using ihP, ?_, ?_⟩
    · simp only [List.foldl_cons]
      rw [iheq, heq]
    · intro f hf
      simp only [List.foldl_cons]
      rw [ihtest f hf, htest f hf]
      by_cases hxf : x = f
      · simp [hxf]
      · have hfx : ¬ f = x := fun h => hxf h.symm
        simp [hxf, hfx, List.mem_cons]

/-- One `|=` step on a key distribution value below 16. -/
theorem key_distribution_set_step :
    ∀ v, v < 16 → ∀ x ∈ key_distribution_flags,
      key_distribution_set v x < 16 ∧ key_distribution_set v x = v ||| x ∧
      ∀ f ∈ key_distribution_flags,
        flag_is_set (key_distribution_set v x) f = (flag_is_set v f || decide (x = f)) := by
  decide

/-- One `|=` step on an authentication value below 32 whose bit 0x02 is clear. -/
theorem authentication_set_step :
    ∀ v, v < 32 → v &&& AUTHENTICATION_BONDING_SECOND_BIT = 0 → ∀ x ∈ authentication_flags,
      (authentication_set v x < 32 ∧
        authentication_set v x &&& AUTHENTICATION_BONDING_SECOND_BIT = 0) ∧
      authentication_set v x = v ||| x ∧
      ∀ f ∈ authentication_flags,
        flag_is_set (authentication_set v x) f = (flag_is_set v f || decide (x = f)) := by
  decide

/-- C4: the key distribution flags form a bitset over exactly four keys. The four key
flags are distinct values of one bit each, `KEY_DISTRIBUTION_NONE` is the empty set,
`KEY_DISTRIBUTION_ALL` is the bitwise or of the four; for every collection `S` of key
flags, the value obtained by or-ing the flags of `S` into a `key_distribution_t` has,
under the test by bitwise and, exactly the flags of `S` set, and is a subset of
`KEY_DISTRIBUTION_ALL`. -/
theorem key_distribution_flags_form_a_bitset (S : List Nat)
    (hS : ∀ x ∈ S, x ∈ key_distribution_flags) :
    (key_distribution_flags.length = 4 ∧ key_distribution_flags.Nodup ∧
        ∀ f ∈ key_distribution_flags, is_single_bit f) ∧
      (KEY_DISTRIBUTION_NONE = key_distribution_of [] ∧
        ∀ f ∈ key_distribution_flags, flag_is_set KEY_DISTRIBUTION_NONE f = false) ∧
      KEY_DISTRIBUTION_ALL = KEY_DISTRIBUTION_ENCRYPTION ||| KEY_DISTRIBUTION_IDENTITY |||
        KEY_DISTRIBUTION_SIGNING ||| KEY_DISTRIBUTION_LINK ∧
      (∀ f ∈ key_distribution_flags, (flag_is_set (key_distribution_of S) f = true ↔ f ∈ S)) ∧
      key_distribution_of S &&& KEY_DISTRIBUTION_ALL = key_distribution_of S := by
  have hfold := foldl_set_flags key_distribution_set key_distribution_flags (fun v => v < 16)
    key_distribution_set_step S hS KEY_DISTRIBUTION_NONE (by decide)
  have hsub : ∀ v, v < 16 → v &&& KEY_DISTRIBUTION_ALL = v := by decide
  refine ⟨⟨rfl, by decide, ?_⟩, ⟨rfl, by decide⟩, by decide, ?_, hsub _ hfold.1⟩
  · intro f hf
    simp only [key_distribution_flags, List.mem_cons, List.mem_singleton, List.not_mem_nil,
      or_false] at hf
    rcases hf with h | h | h | h
    · exact ⟨0, h⟩
    · exact ⟨1, h⟩
    · exact ⟨2, h⟩
    · exact ⟨3, h⟩
  · intro f hf
    have hnone : flag_is_set KEY_DISTRIBUTION_NONE f = false := by
      revert f
      decide
    show flag_is_set (S.foldl key_distribution_set KEY_DISTRIBUTION_NONE) f = true ↔ f ∈ S
    rw [hfold.2.2 f hf, hnone]
    simp

/-- Witness of C4 at the collection of the signing and the encryption key. -/
theorem key_distribution_flags_form_a_bitset_witness :
    key_distribution_of [KEY_DISTRIBUTION_SIGNING, KEY_DISTRIBUTION_ENCRYPTION] = 0x05 ∧
      (∀ f ∈ key_distribution_flags,
        (flag_is_set (key_distribution_of [KEY_DISTRIBUTION_SIGNING,
          KEY_DISTRIBUTION_ENCRYPTION]) f = true ↔
          f ∈ [KEY_DISTRIBUTION_SIGNING, KEY_DISTRIBUTION_ENCRYPTION])) ∧
      key_distribution_of [KEY_DISTRIBUTION_SIGNING, KEY_DISTRIBUTION_ENCRYPTION] &&&
        KEY_DISTRIBUTION_ALL
        = key_distribution_of [KEY_DISTRIBUTION_SIGNING, KEY_DISTRIBUTION_ENCRYPTION] :=
  have h := key_distribution_flags_form_a_bitset
    [KEY_DISTRIBUTION_SIGNING, KEY_DISTRIBUTION_ENCRYPTION] (by decide)
  ⟨by decide, h.2.2.2.1, h.2.2.2.2⟩

/-- C5: the authentication requirement flags are independent bits laid out as the SMP
AuthReq octet. Bonding sits on bit 0, MITM on bit 2, secure connections on bit 3 and
keypress notification on bit 4, as in the AuthReq octet (bit 1 is the second bonding
bit, bits 5 to 7 stay clear). The four flags are pairwise bit-disjoint values of one bit
each, none uses bit 0x02; for every collection `S` of the flags the bitwise or of `S` fits the
8-bit `authentication_t` (storing it loses nothing), leaves bit 0x02 clear, and has,
under the test by bitwise and, exactly the flags of `S` set. -/
theorem authentication_flags_are_independent_bits (S : List Nat)
    (hS : ∀ x ∈ S, x ∈ authentication_flags) :
    (AUTHENTICATION_BONDING = 2 ^ 0 ∧ AUTHENTICATION_MITM = 2 ^ 2 ∧
        AUTHENTICATION_SECURE_CONNECTIONS = 2 ^ 3 ∧
        AUTHENTICATION_KEYPRESS_NOTIFICATION = 2 ^ 4 ∧
        AUTHENTICATION_BONDING_SECOND_BIT = 2 ^ 1 ∧
        authentication_flags = [2 ^ 0, 2 ^ 2, 2 ^ 3, 2 ^ 4] ∧
        ∀ f ∈ authentication_flags, f < 2 ^ 5) ∧
      (authentication_flags.length = 4 ∧
        (∀ f ∈ authentication_flags, ∀ g ∈ authentication_flags, f ≠ g → f &&& g = 0) ∧
        ∀ f ∈ authentication_flags, is_single_bit f) ∧
      (∀ f ∈ authentication_flags, f &&& AUTHENTICATION_BONDING_SECOND_BIT = 0) ∧
      (S.foldl (fun a b => a ||| b) 0 < UINT8_RANGE ∧
        authentication_of S = S.foldl (fun a b => a ||| b) 0 ∧
        authentication_of S &&& AUTHENTICATION_BONDING_SECOND_BIT = 0) ∧
      (∀ f ∈ authentication_flags, (flag_is_set (authentication_of S) f = true ↔ f ∈ S)) := by
  have hfold := foldl_set_flags authentication_set authentication_flags
    (fun v => v < 32 ∧ v &&& AUTHENTICATION_BONDING_SECOND_BIT = 0)
    (fun v hv => authentication_set_step v hv.1 hv.2) S hS 0 (by decide)
  have hlt : S.foldl (fun a b => a ||| b) 0 < UINT8_RANGE := by
    rw [← hfold.2.1]
    exact lt_trans hfold.1.1 (by decide)
  refine ⟨⟨rfl, rfl, rfl, rfl, rfl, rfl, by decide⟩, ⟨rfl, by decide, ?_⟩, by decide,
    ⟨hlt, hfold.2.1, hfold.1.2⟩, ?_⟩
  · intro f hf
    simp only [authentication_flags, List.mem_cons, List.mem_singleton, List.not_mem_nil,
      or_false] at hf
    rcases hf with h | h | h | h
    · exact ⟨0, h⟩
    · exact ⟨2, h⟩
    · exact ⟨3, h⟩
    · exact ⟨4, h⟩
  · intro f hf
    have hnone : flag_is_set 0 f = false := by
      revert f
      decide
    show flag_is_set (S.foldl authentication_set 0) f = true ↔ f ∈ S
    rw [hfold.2.2 f hf, hnone]
    simp

/-- Witness of C5 at the collection of the MITM and the bonding flag. -/
theorem authentication_flags_are_independent_bits_witness :
    authentication_of [AUTHENTICATION_MITM, AUTHENTICATION_BONDING] = 0x05 ∧
      authentication_of [AUTHENTICATION_MITM, AUTHENTICATION_BONDING] &&&
        AUTHENTICATION_BONDING_SECOND_BIT = 0 ∧
      (∀ f ∈ authentication_flags,
        (flag_is_set (authentication_of [AUTHENTICATION_MITM, AUTHENTICATION_BONDING]) f = true
          ↔ f ∈ [AUTHENTICATION_MITM, AUTHENTICATION_BONDING])) :=
  have h := authentication_flags_are_independent_bits
    [AUTHENTICATION_MITM, AUTHENTICATION_BONDING] (by decide)
  ⟨by decide, h.2.2.2.1.2.2, h.2.2.2.2⟩

/-- The scan finds nothing exactly when the address is not stored. -/
theorem find_bonded_entry_eq_none {address_t : Type} [DecidableEq address_t]
    (address : address_t) (entries : List (bonded_list_entry_t address_t)) :
    find_bonded_entry address entries = none ↔
      address ∉ entries.map (fun e => e.peer_address) := by
  induction entries with
  | nil => simp [find_bonded_entry]
  | cons e rest ih =>
    by_cases h : e.peer_address = address
    · simp [find_bonded_entry, h]
    · have h2 : ¬ address = e.peer_address := fun hh => h hh.symm
      simp only [find_bonded_entry, h, if_false, Option.map_eq_none', ih, List.map_cons,
        List.mem_cons, h2, false_or]

/-- The scan returns the index of a cell that holds the address; writing an entry with
that address to the cell leaves the sequence of stored addresses as it was. -/
theorem find_bonded_entry_eq_some {address_t : Type} [DecidableEq address_t]
    (entry : bonded_list_entry_t address_t) (entries : List (bonded_list_entry_t address_t))
    (i : Nat) (h : find_bonded_entry entry.peer_address entries = some i) :
    i < entries.length ∧
      (entries[i]?).map (fun e => e.peer_address) = some entry.peer_address ∧
      (entries.set i entry).map (fun e => e.peer_address)
        = entries.map (fun e => e.peer_address) := by
  induction entries generalizing i with
  | nil => simp [find_bonded_entry] at h
  | cons e rest ih =>
    by_cases he : e.peer_address = entry.peer_address
    · simp only [find_bonded_entry, he, if_true, Option.some.injEq] at h
      subst h
      simp [he]
    · simp only [find_bonded_entry, he, if_false, Option.map_eq_some'] at h
      obtain ⟨j, hj, rfl⟩ := h
      obtain ⟨h1, h2, h3⟩ := ih j hj
      refine ⟨by simpa using h1, by simpa using h2, ?_⟩
      simp only [List.set_cons_succ, List.map_cons, h3]

/-- An add on a consistent bonded list leaves a consistent bonded list. -/
theorem add_bonded_list_entry_consistent {address_t : Type} [DecidableEq address_t]
    (list : bonded_list_t address_t) (entry : bonded_list_entry_t address_t)
    (hc : list.consistent) : (add_bonded_list_entry list entry).1.consistent := by
  obtain ⟨hsize, hcap, hrange, hnodup⟩ := hc
  unfold add_bonded_list_entry
  cases hfind : find_bonded_entry entry.peer_address list.entries with
  | some i =>
    obtain ⟨_, _, hmap⟩ := find_bonded_entry_eq_some entry list.entries i hfind
    refine ⟨?_, hcap, hrange, ?_⟩
    · simpa using hsize
    · show ((list.entries.set i entry).map (fun e => e.peer_address)).Nodup
      rw [hmap]
      exact hnodup
  | none =>
    have hnew := (find_bonded_entry_eq_none entry.peer_address list.entries).1 hfind
    by_cases hfull : list.capacity ≤ list.size
    · simp only [hfull, if_true]
      exact ⟨hsize, hcap, hrange, hnodup⟩
    · simp only [hfull, if_false]
      have hroom : list.size + 1 < UINT8_RANGE := by omega
      have hstore : to_uint8_t (list.size + 1) = list.size + 1 := Nat.mod_eq_of_lt hroom
      refine ⟨?_, ?_, hrange, ?_⟩
      · show to_uint8_t (list.size + 1) = (list.entries ++ [entry]).length
        rw [hstore, hsize, List.length_append, List.length_singleton]
      · simp only [hstore]
        omega
      · show ((list.entries ++ [entry]).map (fun e => e.peer_address)).Nodup
        rw [List.map_append, List.nodup_append]
        refine ⟨hnodup, by simp, ?_⟩
        intro a ha hb
        simp only [List.map_cons, List.map_nil, List.mem_singleton] at hb
        subst hb
        exact hnew ha

/-- A sequence of adds on a consistent bonded list leaves a consistent bonded list. -/
theorem add_bonded_list_entries_consistent {address_t : Type} [DecidableEq address_t]
    (entries : List (bonded_list_entry_t address_t)) (list : bonded_list_t address_t)
    (hc : list.consistent) : (add_bonded_list_entries list entries).consistent := by
  induction entries generalizing list with
  | nil => exact hc
  | cons e rest ih => exact ih _ (add_bonded_list_entry_consistent list e hc)

/-- C6: for every bonded list and every entry, `add_bonded_list_entry` with a peer
address already present overwrites that entry in place (the cell that held the address
receives the entry, the sequence of stored addresses and the size are unchanged) and
succeeds; with a new peer address on a list whose size equals its capacity it fails
with `StoreFull` and leaves the list unchanged; so the consistency rules of the store
(`size` counts the cells, `size ≤ capacity`, peer addresses unique) hold after every
add on a consistent list, and after every sequence of adds that starts from the empty
list of a capacity that fits a `uint8_t`. -/
theorem add_bonded_list_entry_contract {address_t : Type} [DecidableEq address_t]
    (list : bonded_list_t address_t) (entry : bonded_list_entry_t address_t) :
    (entry.peer_address ∈ list.addresses →
      ∃ i, i < list.entries.length ∧
        (list.entries[i]?).map (fun e => e.peer_address) = some entry.peer_address ∧
        add_bonded_list_entry list entry
          = ({ list with entries := list.entries.set i entry }, .ok ()) ∧
        (add_bonded_list_entry list entry).1.size = list.size ∧
        (add_bonded_list_entry list entry).1.entries.length = list.entries.length ∧
        (add_bonded_list_entry list entry).1.addresses = list.addresses) ∧
      (entry.peer_address ∉ list.addresses → list.size = list.capacity →
        add_bonded_list_entry list entry = (list, .error Error.StoreFull)) ∧
      (list.consistent →
        (add_bonded_list_entry list entry).1.consistent ∧
        (add_bonded_list_entry list entry).1.size ≤ (add_bonded_list_entry list entry).1.capacity ∧
        (add_bonded_list_entry list entry).1.addresses.Nodup) ∧
      (∀ (capacity : Nat) (entries : List (bonded_list_entry_t address_t)),
        capacity < UINT8_RANGE →
        (add_bonded_list_entries (empty_bonded_list address_t capacity) entries).size
            ≤ capacity ∧
          (add_bonded_list_entries (empty_bonded_list address_t capacity)
            entries).addresses.Nodup) := by
  have hcons := add_bonded_list_entry_consistent list entry
  refine ⟨?_, ?_, fun hc => ⟨hcons hc, (hcons hc).2.1, (hcons hc).2.2.2⟩, ?_⟩
  · intro hmem
    cases hfind : find_bonded_entry entry.peer_address list.entries with
    | none =>
      exact absurd hmem ((find_bonded_entry_eq_none entry.peer_address list.entries).1 hfind)
    | some i =>
      obtain ⟨h1, h2, h3⟩ := find_bonded_entry_eq_some entry list.entries i hfind
      refine ⟨i, h1, h2, ?_⟩
      simp only [add_bonded_list_entry, hfind, List.length_set, bonded_list_t.addresses, h3,
        and_self]
  · intro hnew hfull
    have hfind := (find_bonded_entry_eq_none entry.peer_address list.entries).2 hnew
    simp only [add_bonded_list_entry, hfind, hfull, le_refl, if_true]
  · intro capacity entries hcap
    have hempty : (empty_bonded_list address_t capacity).consistent :=
      ⟨rfl, Nat.zero_le capacity, hcap, List.nodup_nil⟩
    have hall := add_bonded_list_entries_consistent entries _ hempty
    have hcapacity : ∀ (es : List (bonded_list_entry_t address_t))
        (l : bonded_list_t address_t),
        (add_bonded_list_entries l es).capacity = l.capacity := by
      intro es
      induction es with
      | nil => intro l; rfl
      | cons e rest ih =>
        intro l
        show (add_bonded_list_entries (add_bonded_list_entry l e).1 rest).capacity = l.capacity
        rw [ih]
        unfold add_bonded_list_entry
        split
        · rfl
        · split <;> rfl
    have hle := hall.2.1
    rw [hcapacity] at hle
    exact ⟨hle, hall.2.2.2⟩

/-- Witness of C6 on the scenario of section 8: on the store of capacity 8 holding 8
distinct peer addresses, re-adding the third address overwrites the third cell in
place, and adding a ninth address fails with `StoreFull`. -/
theorem add_bonded_list_entry_contract_witness :
    add_bonded_list_entry example_full_store (example_entry 3 0xAA)
        = ({ example_full_store with
              entries := example_full_store.entries.set 2 (example_entry 3 0xAA) }, .ok ()) ∧
      (add_bonded_list_entry example_full_store (example_entry 3 0xAA)).1.size = 8 ∧
      add_bonded_list_entry example_full_store (example_entry 9 0xAA)
        = (example_full_store, .error Error.StoreFull) ∧
      (add_bonded_list_entry example_full_store (example_entry 3 0xAA)).1.consistent ∧
      (add_bonded_list_entry example_full_store (example_entry 9 0xAA)).1.consistent :=
  have hc : example_full_store.consistent := by
    unfold bonded_list_t.consistent
    decide
  have h3 := add_bonded_list_entry_contract example_full_store (example_entry 3 0xAA)
  have h9 := add_bonded_list_entry_contract example_full_store (example_entry 9 0xAA)
  ⟨by decide, (h3.1 (by decide)).choose_spec.2.2.2.1, h9.2.1 (by decide) (by decide),
    (h3.2.2.1 hc).1, (h9.2.2.1 hc).1⟩

/-- One reaction of a session in a terminal state leaves the whole session as it is. -/
theorem step_of_terminal (select : pairing_parameters → pairing_parameters → PairingAlgorithm)
    (violation_limit : Nat) (s : PairingSession) (h : s.state.is_terminal = true)
    (i : Input) : (step select violation_limit s i).1 = s := by
  have hs : s.state = .Complete ∨ s.state = .Aborted := by
    cases hstate : s.state <;> simp [hstate, PairingState.is_terminal] at h <;> simp
  rcases hs with hs | hs <;> cases i <;>
    simp [step, hs, invalid_call, protocol_violation, PairingState.is_terminal]

/-- A local call or a PDU on a session in a terminal state is rejected with
`InvalidState`. -/
theorem call_or_pdu_of_terminal
    (select : pairing_parameters → pairing_parameters → PairingAlgorithm)
    (violation_limit : Nat) (s : PairingSession) (h : s.state.is_terminal = true)
    (i : Input) (hi : i.is_local_call = true ∨ i.is_pdu = true) :
    (step select violation_limit s i).2 = .error Error.InvalidState := by
  have hs : s.state = .Complete ∨ s.state = .Aborted := by
    cases hstate : s.state <;> simp [hstate, PairingState.is_terminal] at h <;> simp
  rcases hs with hs | hs <;> cases i <;>
    simp [Input.is_local_call, Input.is_pdu] at hi <;>
    simp [step, hs, invalid_call, protocol_violation, PairingState.is_terminal]

/-- A sequence of reactions of a session in a terminal state leaves the session as it is. -/
theorem run_of_terminal (select : pairing_parameters → pairing_parameters → PairingAlgorithm)
    (violation_limit : Nat) (s : PairingSession) (h : s.state.is_terminal = true)
    (inputs : List Input) : run select violation_limit s inputs = s := by
  induction inputs with
  | nil => rfl
  | cons i rest ih =>
    show run select violation_limit (step select violation_limit s i).1 rest = s
    rw [step_of_terminal select violation_limit s h i]
    exact ih

/-- Running two sequences of inputs one after the other. -/
theorem run_append (select : pairing_parameters → pairing_parameters → PairingAlgorithm)
    (violation_limit : Nat) (s : PairingSession) (before after : List Input) :
    run select violation_limit s (before ++ after)
      = run select violation_limit (run select violation_limit s before) after := by
  simp [run, List.foldl_append]

/-- C8: a pairing session that has reached `Aborted` or `Complete` never leaves that
state. Whatever the table of algorithms and the tolerance for protocol violations, for
a session in a terminal state every input (each local call, each PDU, the timer) leaves
the session, and so its state, unchanged; each local call and each PDU is rejected with
`InvalidState`; the same holds for every sequence of inputs, and for every sequence of
inputs that follows a sequence which led into the terminal state. -/
theorem terminal_state_is_never_left
    (select : pairing_parameters → pairing_parameters → PairingAlgorithm)
    (violation_limit : Nat) (s : PairingSession) (h : s.state.is_terminal = true) :
    (∀ i : Input, (step select violation_limit s i).1 = s ∧
        (step select violation_limit s i).1.state = s.state) ∧
      (∀ i : Input, i.is_local_call = true ∨ i.is_pdu = true →
        (step select violation_limit s i).2 = .error Error.InvalidState) ∧
      (∀ inputs : List Input, run select violation_limit s inputs = s ∧
        (run select violation_limit s inputs).state = s.state) ∧
      (∀ (start : PairingSession) (before after : List Input),
        run select violation_limit start before = s →
        (run select violation_limit start (before ++ after)).state = s.state) := by
  refine ⟨fun i => ?_, fun i hi => call_or_pdu_of_terminal select violation_limit s h i hi,
    fun inputs => ?_, fun start before after hrun => ?_⟩
  · rw [step_of_terminal select violation_limit s h i]
    exact ⟨rfl, rfl⟩
  · rw [run_of_terminal select violation_limit s h inputs]
    exact ⟨rfl, rfl⟩
  · rw [run_append, hrun, run_of_terminal select violation_limit s h after]

/-- Witness of C8: an initiator session that completed a Just Works pairing is in
`Complete`, one that was cancelled is in `Aborted`, and one input of every kind after
that leaves each of them where it is. -/
theorem terminal_state_is_never_left_witness :
    (run example_select 3 PairingSession.idle example_complete_inputs).state = .Complete ∧
      (run example_select 3 PairingSession.idle example_aborted_inputs).state = .Aborted ∧
      (run example_select 3 PairingSession.idle
        (example_complete_inputs ++ example_all_inputs)).state = .Complete ∧
      (run example_select 3 PairingSession.idle
        (example_aborted_inputs ++ example_all_inputs)).state = .Aborted :=
  have hc : (run example_select 3 PairingSession.idle example_complete_inputs).state
      = .Complete := by decide
  have ha : (run example_select 3 PairingSession.idle example_aborted_inputs).state
      = .Aborted := by decide
  ⟨hc, ha,
    ((terminal_state_is_never_left example_select 3
      (run example_select 3 PairingSession.idle example_complete_inputs)
      (by rw [hc]; rfl)).2.2.2 PairingSession.idle example_complete_inputs
        example_all_inputs rfl).trans hc,
    ((terminal_state_is_never_left example_select 3
      (run example_select 3 PairingSession.idle example_aborted_inputs)
      (by rw [ha]; rfl)).2.2.2 PairingSession.idle example_aborted_inputs
        example_all_inputs rfl).trans ha⟩

end pal
end ble
